import Mathlib

/-!
Shallow embedding of the learning/profile core of the `email-assistant`
repository (files `src/profile.rs`, `src/learning.rs`, `src/predictions.rs`,
and the batching loops of `src/main.rs`), together with proofs of the
behavioural properties stated about it.

Strings are modelled as `List Char`.  Rust's byte indices returned by
`str::find` always sit on character boundaries for the patterns used here, so
character-level indices are a faithful abstraction of the byte-level code.
-/

namespace EmailAssistant

/-- Strings of the model: lists of characters. -/
abbrev Str := List Char

/-! ## Basic string operations (Rust `str::find`, `str::trim`, ...) -/

/-- Boolean test that `pat` is an initial segment of `s`. -/
def strStartsWith (pat s : Str) : Bool :=
  decide (s.take pat.length = pat)

/-- Rust `str::find` for a string pattern: index of the first occurrence of
`pat` in `s`, if any. -/
def findSub (pat : Str) : Str → Option Nat
  | [] => if strStartsWith pat [] then some 0 else none
  | a :: rest =>
    if strStartsWith pat (a :: rest) then some 0
    else (findSub pat rest).map (· + 1)

/-- Rust `str::contains` for a string pattern. -/
def containsSub (pat s : Str) : Bool :=
  (findSub pat s).isSome

/-- The Unicode `White_Space` characters, as removed by Rust `str::trim`. -/
def isRustWhitespace (c : Char) : Bool :=
  c = ' ' || c = '\t' || c = '\n' || c = '\x0b' || c = '\x0c' || c = '\r' ||
  c = '\u0085' || c = '\u00A0' || c = '\u1680' ||
  (0x2000 ≤ c.toNat && c.toNat ≤ 0x200A) ||
  c = '\u2028' || c = '\u2029' || c = '\u202F' || c = '\u205F' || c = '\u3000'

/-- Rust `str::trim`: drop whitespace from both ends. -/
def trimStr (s : Str) : Str :=
  ((s.dropWhile isRustWhitespace).reverse.dropWhile isRustWhitespace).reverse

/-- Rust `u8::to_ascii_lowercase`, lifted to characters. -/
def toLowerAscii (c : Char) : Char :=
  if 'A' ≤ c ∧ c ≤ 'Z' then Char.ofNat (c.toNat + 32) else c

/-- Rust `str::eq_ignore_ascii_case`. -/
def eqIgnoreAsciiCase (a b : Str) : Bool :=
  decide (a.map toLowerAscii = b.map toLowerAscii)

/-! ### Characterisation of `findSub` -/

theorem strStartsWith_iff (pat s : Str) :
    strStartsWith pat s = true ↔ s.take pat.length = pat := by
  simp [strStartsWith]

theorem findSub_eq_some_iff (pat : Str) :
    ∀ (s : Str) (i : Nat),
      findSub pat s = some i ↔
        ((s.drop i).take pat.length = pat ∧
          ∀ j < i, (s.drop j).take pat.length ≠ pat)
  | [], i => by
    constructor
    · intro h
      simp only [findSub] at h
      split at h
      · next hsw =>
        cases h
        refine ⟨(strStartsWith_iff pat []).mp hsw, ?_⟩
        intro j hj; omega
      · exact absurd h (by simp)
    · rintro ⟨h1, h2⟩
      have hi : i = 0 := by
        by_contra hne
        exact h2 0 (Nat.pos_of_ne_zero hne) (by simpa using h1)
      subst hi
      simp only [findSub]
      rw [if_pos ((strStartsWith_iff pat []).mpr (by simpa using h1))]
  | a :: t, i => by
    simp only [findSub]
    by_cases hsw : strStartsWith pat (a :: t) = true
    · rw [if_pos hsw]
      constructor
      · intro h
        cases h
        exact ⟨(strStartsWith_iff pat _).mp hsw, by intro j hj; omega⟩
      · rintro ⟨h1, h2⟩
        by_cases hi : i = 0
        · subst hi; rfl
        · exact absurd ((strStartsWith_iff pat _).mp hsw)
            (h2 0 (Nat.pos_of_ne_zero hi))
    · rw [if_neg hsw]
      have hsw' : (List.take pat.length (a :: t)) ≠ pat := by
        intro h; exact hsw ((strStartsWith_iff pat _).mpr h)
      constructor
      · intro h
        rcases Option.map_eq_some'.mp h with ⟨i', hi', rfl⟩
        rcases (findSub_eq_some_iff pat t i').mp hi' with ⟨h1, h2⟩
        refine ⟨by simpa using h1, ?_⟩
        intro j hj
        cases j with
        | zero => simpa using hsw'
        | succ j' =>
          have := h2 j' (by omega)
          simpa using this
      · rintro ⟨h1, h2⟩
        cases i with
        | zero => exact absurd (by simpa using h1) hsw'
        | succ i' =>
          have h1' : (t.drop i').take pat.length = pat := by simpa using h1
          have h2' : ∀ j < i', (t.drop j).take pat.length ≠ pat := by
            intro j hj
            have := h2 (j + 1) (by omega)
            simpa using this
          rw [(findSub_eq_some_iff pat t i').mpr ⟨h1', h2'⟩]
          rfl

theorem findSub_eq_none_iff (pat : Str) (s : Str) :
    findSub pat s = none ↔ ∀ j, (s.drop j).take pat.length ≠ pat := by
  constructor
  · intro h j hj
    -- there is an occurrence, so the minimal one exists and findSub is some
    have hex : ∃ k, (s.drop k).take pat.length = pat := ⟨j, hj⟩
    have : findSub pat s = some (Nat.find hex) :=
      (findSub_eq_some_iff pat s _).mpr
        ⟨Nat.find_spec hex, fun k hk => Nat.find_min hex hk⟩
    rw [this] at h; cases h
  · intro h
    cases hf : findSub pat s with
    | none => rfl
    | some i =>
      rcases (findSub_eq_some_iff pat s i).mp hf with ⟨h1, _⟩
      exact absurd h1 (h i)

theorem containsSub_iff (pat s : Str) :
    containsSub pat s = true ↔ ∃ j, (s.drop j).take pat.length = pat := by
  constructor
  · intro h
    rcases Option.isSome_iff_exists.mp h with ⟨i, hi⟩
    exact ⟨i, ((findSub_eq_some_iff pat s i).mp hi).1⟩
  · rintro ⟨j, hj⟩
    by_contra h
    have hn : findSub pat s = none := by
      cases hf : findSub pat s with
      | none => rfl
      | some i => exact absurd (by simp [containsSub, hf]) h
    exact (findSub_eq_none_iff pat s).mp hn j hj

/-! ### Positional helpers for `take`/`drop` over `++` -/

theorem take_append_le {α : Type _} (Y z : List α) (n : Nat) (h : n ≤ Y.length) :
    (Y ++ z).take n = Y.take n := by
  rw [List.take_append_eq_append_take, Nat.sub_eq_zero_of_le h, List.take_zero,
    List.append_nil]

theorem drop_append_le {α : Type _} (Y z : List α) (n : Nat) (h : n ≤ Y.length) :
    (Y ++ z).drop n = Y.drop n ++ z := by
  rw [List.drop_append_eq_append_drop, Nat.sub_eq_zero_of_le h, List.drop_zero]

theorem drop_append_add {α : Type _} (Y z : List α) (n : Nat) :
    (Y ++ z).drop (Y.length + n) = z.drop n := by
  rw [List.drop_append_eq_append_drop, List.drop_eq_nil_of_le (by omega),
    Nat.add_sub_cancel_left, List.nil_append]

/-! ## Data model (`src/predictions.rs`, `src/providers/mod.rs`, `src/learning.rs`)

The `confidence` and `timestamp` fields of `Prediction` and the `to`/`body`
fields of `Email` are carried by the Rust structs but never read by the code
modelled here; they are omitted. Rust's `from` field is written `from_`
because `from` is a Lean keyword. -/

structure Prediction where
  email_id : Str
  from_ : Str
  subject : Str
  is_spam : Bool
  theme : List Str
  action : List Str
  /-- Legacy field for backward compatibility. -/
  labels : List Str
deriving DecidableEq, Repr

/-- `Prediction::all_labels` (`src/predictions.rs:32`): theme ++ action, or the
legacy `labels` field when both are empty. -/
def Prediction.all_labels (p : Prediction) : List Str :=
  if !p.theme.isEmpty || !p.action.isEmpty then p.theme ++ p.action else p.labels

structure Email where
  id : Str
  from_ : Str
  subject : Str
  labels : List Str
deriving DecidableEq, Repr

structure Correction where
  email_id : Str
  from_ : Str
  subject : Str
  predicted_labels : List Str
  actual_labels : List Str
  predicted_spam : Bool
  actual_spam : Bool
deriving DecidableEq, Repr

structure LearningResult where
  corrections : List Correction
  deleted_ids : List Str
deriving DecidableEq, Repr

/-! ## Profile document mutation (`src/profile.rs`) -/

/-- The `## Learned Corrections` section marker. -/
def lcHeader : Str := "## Learned Corrections".toList

/-- `Profile::append_correction` (`src/profile.rs:51-60`): insert `- {text}\n`
immediately after the `## Learned Corrections` header line, or append a fresh
section at the end of the document when the header is absent. -/
def append_correction (content : Str) (correction : Str) : Str :=
  match findSub lcHeader content with
  | some idx =>
    let insertPos :=
      match findSub ['\n'] (content.drop idx) with
      | some i => idx + i + 1
      | none => content.length
    content.take insertPos ++ ('-' :: ' ' :: correction ++ ['\n']) ++
      content.drop insertPos
  | none =>
    content ++ ('\n' :: lcHeader) ++ ('\n' :: '-' :: ' ' :: correction ++ ['\n'])

/-- The `format!("### {}", label)` section header searched by
`remove_label_rules`. -/
def labelHeader (label : Str) : Str := '#' :: '#' :: '#' :: ' ' :: label

/-- `Profile::remove_label_rules` (`src/profile.rs:62-79`): locate
`### {label}`, cut from there to the first later `"\n### "` if one exists,
otherwise to the first later `"\n## "`, otherwise to the end of the document. -/
def remove_label_rules (content : Str) (label : Str) : Str :=
  match findSub (labelHeader label) content with
  | some start =>
    let remaining := content.drop (start + (labelHeader label).length)
    let endPos :=
      match findSub ("\n### ".toList) remaining with
      | some i => start + (labelHeader label).length + i
      | none =>
        match findSub ("\n## ".toList) remaining with
        | some i => start + (labelHeader label).length + i
        | none => content.length
    content.take start ++ content.drop endPos
  | none => content

/-! ## Correction detection (`src/learning.rs`) -/

/-- `is_system_label` (`src/learning.rs:271-293`). -/
def is_system_label (label : Str) : Bool :=
  decide (label = "INBOX".toList) || decide (label = "SENT".toList) ||
  decide (label = "DRAFT".toList) || decide (label = "TRASH".toList) ||
  decide (label = "SPAM".toList) || decide (label = "STARRED".toList) ||
  decide (label = "IMPORTANT".toList) || decide (label = "UNREAD".toList) ||
  decide (label = "CATEGORY_PERSONAL".toList) ||
  decide (label = "CATEGORY_SOCIAL".toList) ||
  decide (label = "CATEGORY_PROMOTIONS".toList) ||
  decide (label = "CATEGORY_UPDATES".toList) ||
  decide (label = "CATEGORY_FORUMS".toList) ||
  eqIgnoreAsciiCase label ("Classified".toList)

/-- Loop body of `LearningEngine::detect_corrections` (`src/learning.rs:57-97`)
for one successfully fetched email: the `Correction` pushed for this
prediction, if any mismatch is detected. -/
def correction_for (prediction : Prediction) (email : Email) : Option Correction :=
  let actual_spam := email.labels.any (fun l => decide (l = "SPAM".toList))
  let spam_mismatch := prediction.is_spam != actual_spam
  let predicted_labels := prediction.all_labels
  let removed_labels := predicted_labels.filter
    (fun pred_label =>
      !(email.labels.any (fun email_label => eqIgnoreAsciiCase email_label pred_label)))
  let added_labels := email.labels.filter
    (fun email_label =>
      !(is_system_label email_label) &&
      !(predicted_labels.any (fun pred_label => eqIgnoreAsciiCase pred_label email_label)))
  let label_mismatch := !removed_labels.isEmpty || !added_labels.isEmpty
  if spam_mismatch || label_mismatch then
    some { email_id := prediction.email_id
           from_ := prediction.from_
           subject := prediction.subject
           predicted_labels := prediction.all_labels
           actual_labels := email.labels.filter (fun l => !(is_system_label l))
           predicted_spam := prediction.is_spam
           actual_spam := actual_spam }
  else none

/-- `LearningEngine::detect_corrections` (`src/learning.rs:43-101`).  The
provider is the oracle `fetch`; `none` models a failed `get_message` (email no
longer exists).  The `for` loop over the store is modelled as structural
recursion emitting corrections and deleted ids in iteration order. -/
def detect_corrections (fetch : Str → Option Email) : List Prediction → LearningResult
  | [] => { corrections := [], deleted_ids := [] }
  | prediction :: rest =>
    let r := detect_corrections fetch rest
    match fetch prediction.email_id with
    | none =>
      { corrections := r.corrections
        deleted_ids := prediction.email_id :: r.deleted_ids }
    | some email =>
      match correction_for prediction email with
      | some c => { corrections := c :: r.corrections, deleted_ids := r.deleted_ids }
      | none => r

/-! ## Response extraction (`src/learning.rs:295-323`) -/

def mdTag : Str := "```markdown".toList
def fenceTag : Str := "```".toList
def profileTitle : Str := "# Email Classification Profile".toList

/-- First block of `extract_profile_update`: a fenced block tagged
`markdown`.  The source hardcodes the offset `11 = "```markdown".len()`. -/
def extract_md_block (response : Str) : Option Str :=
  match findSub mdTag response with
  | some start =>
    match findSub fenceTag (response.drop (start + 11)) with
    | some e => some (trimStr ((response.drop (start + 11)).take e))
    | none => none
  | none => none

/-- Second block of `extract_profile_update`: any fenced block, skipping a
language identifier up to the first newline if present. -/
def extract_any_block (response : Str) : Option Str :=
  match findSub fenceTag response with
  | some start =>
    let contentStart := start + 3
    let actualStart :=
      match findSub ['\n'] (response.drop contentStart) with
      | some i => contentStart + i + 1
      | none => contentStart
    match findSub fenceTag (response.drop actualStart) with
    | some e => some (trimStr ((response.drop actualStart).take e))
    | none => none
  | none => none

/-- `extract_profile_update` (`src/learning.rs:295-323`): markdown-tagged
fenced block first, then any fenced block, then the raw trimmed response when
it starts with the canonical profile title, else no update. -/
def extract_profile_update (response : Str) : Option Str :=
  match extract_md_block response with
  | some u => some u
  | none =>
    match extract_any_block response with
    | some u => some u
    | none =>
      let trimmed := trimStr response
      if strStartsWith profileTitle trimmed then some trimmed else none

/-! ## Debug formatting of label vectors (Rust `{:?}` on `Vec<String>`) -/

/-- A lowercase hexadecimal digit. -/
def hexDigit (d : Nat) : Char :=
  if d < 10 then Char.ofNat (48 + d) else Char.ofNat (87 + d)

/-- Lowercase hex digits of `n` (Rust `escape_unicode` formatting). -/
def toHex (n : Nat) : Str :=
  if _h : n < 16 then [hexDigit n]
  else toHex (n / 16) ++ [hexDigit (n % 16)]
decreasing_by exact Nat.div_lt_self (by omega) (by omega)

/-- One character of Rust's `Debug` output for a string: `escape_debug` with
quotes escaped.  Non-ASCII non-printable and grapheme-extend characters, which
Rust would also escape, do not occur in the data handled here and are kept
verbatim. -/
def escapeDebugChar (c : Char) : Str :=
  if c = '"' then ['\\', '"']
  else if c = '\\' then ['\\', '\\']
  else if c = '\n' then ['\\', 'n']
  else if c = '\r' then ['\\', 'r']
  else if c = '\t' then ['\\', 't']
  else if c = '\x00' then ['\\', '0']
  else if c.toNat < 32 || c.toNat = 127 then
    '\\' :: 'u' :: '\x7b' :: (toHex c.toNat ++ ['\x7d'])
  else [c]

/-- Rust `Debug` for one `String`. -/
def debugStr (s : Str) : Str :=
  '"' :: ((s.map escapeDebugChar).flatten ++ ['"'])

/-- Rust `Debug` for a `Vec<String>`: `["a", "b"]`. -/
def debugVec (v : List Str) : Str :=
  '[' :: (List.intercalate (", ".toList) (v.map debugStr) ++ [']'])

/-- The human-readable log line recorded for one correction
(`LearningEngine::apply_corrections`, `src/learning.rs:111-129`). -/
def correction_description (date : Str) (c : Correction) : Str :=
  if c.predicted_spam != c.actual_spam then
    if c.actual_spam then
      date ++ ": User marked email as spam (from: ".toList ++ c.from_ ++
        ", subject: ".toList ++ c.subject ++ [')']
    else
      date ++ ": User unmarked spam (false positive, from: ".toList ++ c.from_ ++
        ", subject: ".toList ++ c.subject ++ [')']
  else
    date ++ ": User relabeled email (from: ".toList ++ c.from_ ++
      ", predicted: ".toList ++ debugVec c.predicted_labels ++
      ", actual: ".toList ++ debugVec c.actual_labels ++ [')']

/-! ## The external text-generation call and the batch loops -/

/-- Outcome of one external `claude` invocation, as distinguished by
`get_batched_profile_update` (`src/learning.rs:238-261`): `failure` is a spawn
error or the 90s timeout (an `anyhow` error), `exit_error` a nonzero exit
status, `response` the captured stdout of a successful run. -/
inductive GenOutcome where
  | failure
  | exit_error
  | response (stdout_text : Str)
deriving DecidableEq, Repr

def noUpdateToken : Str := "NO_UPDATE_NEEDED".toList

/-- Response handling of `get_batched_profile_update`
(`src/learning.rs:252-268`): spawn failure/timeout propagates as an error; a
nonzero exit yields `Ok(None)`; otherwise the trimmed stdout is checked for
the `NO_UPDATE_NEEDED` token (substring containment) and then fed to
`extract_profile_update`. -/
def get_batched_profile_update (outcome : GenOutcome) : Except Unit (Option Str) :=
  match outcome with
  | .failure => .error ()
  | .exit_error => .ok none
  | .response stdout_text =>
    let response := trimStr stdout_text
    if containsSub noUpdateToken response then .ok none
    else .ok (extract_profile_update response)

/-- Response handling of `learn_from_action` (`src/learning.rs:179-204`):
unlike the batched variant, a nonzero exit status is a hard error (`bail!`);
the token check and extraction are identical. -/
def learn_from_action (outcome : GenOutcome) : Except Unit (Option Str) :=
  match outcome with
  | .failure => .error ()
  | .exit_error => .error ()
  | .response stdout_text =>
    let response := trimStr stdout_text
    if containsSub noUpdateToken response then .ok none
    else .ok (extract_profile_update response)

/-- One external rewrite call as issued by `apply_corrections`: the batch sent
and the profile text carried in the prompt (the baseline the rewrite starts
from). -/
structure CallRecord where
  batch : List Correction
  baseline : Str
deriving DecidableEq, Repr

/-- The per-correction log lines appended by `apply_corrections` before its
external call. -/
def appendBatchLogs (date content : Str) (corrections : List Correction) : Str :=
  corrections.foldl
    (fun c k => append_correction c (correction_description date k)) content

/-- `LearningEngine::apply_corrections` (`src/learning.rs:103-140`): empty
batches return immediately; otherwise the log lines are appended to the
profile, one external call is issued, and on success with a usable update the
profile content is replaced wholesale.  Returns the resulting profile
content, the external calls issued (zero or one), and whether the `Result`
was `Ok` — note that the appended log lines survive a failed call. -/
def apply_corrections (outcome : GenOutcome) (date content : Str)
    (corrections : List Correction) : Str × List CallRecord × Bool :=
  if corrections.isEmpty then (content, [], true)
  else
    let content1 := appendBatchLogs date content corrections
    match get_batched_profile_update outcome with
    | .error _ => (content1, [{ batch := corrections, baseline := content1 }], false)
    | .ok (some newProfile) =>
      (newProfile, [{ batch := corrections, baseline := content1 }], true)
    | .ok none => (content1, [{ batch := corrections, baseline := content1 }], true)

/-- Rust `slice::chunks(n)` for `n > 0`: consecutive chunks of size `n`, the
last possibly shorter. -/
def chunksList {α : Type _} (n : Nat) : List α → List (List α)
  | [] => []
  | a :: l => (a :: l).take n :: chunksList n (l.drop (n - 1))
termination_by l => l.length
decreasing_by simp [List.length_drop]; omega

/-- The batch loop of `commands::scan` (`src/main.rs:238-252`): every chunk is
applied in turn; a failed `apply_corrections` is logged as a warning and the
loop continues with the content as mutated so far.  `gen i` is the external
outcome of the `i`-th loop iteration's call.  Returns the final profile
content and the trace of external calls issued. -/
def scanRunChunks (gen : Nat → GenOutcome) (date : Str) :
    List (List Correction) → Nat → Str → Str × List CallRecord
  | [], _, content => (content, [])
  | chunk :: rest, i, content =>
    let r := apply_corrections (gen i) date content chunk
    let next := scanRunChunks gen date rest (i + 1) r.1
    (next.1, r.2.1 ++ next.2)

/-- `commands::scan` correction pass: chunk the detected corrections by
`BATCH_SIZE = 25` and run the batch loop (`src/main.rs:238-252`). -/
def scan_apply_batches (gen : Nat → GenOutcome) (date : Str)
    (corrections : List Correction) (content : Str) : Str × List CallRecord :=
  scanRunChunks gen date (chunksList 25 corrections) 0 content

/-- The batch loop of `commands::learn` (`src/main.rs:545-556`):
`learning.apply_corrections(chunk).await?` — the `?` aborts the whole command
on the first failed batch.  Returns the `Result` together with the trace of
external calls issued before stopping. -/
def learnRunChunks (gen : Nat → GenOutcome) (date : Str) :
    List (List Correction) → Nat → Str → Except Unit Str × List CallRecord
  | [], _, content => (.ok content, [])
  | chunk :: rest, i, content =>
    let r := apply_corrections (gen i) date content chunk
    if r.2.2 then
      let next := learnRunChunks gen date rest (i + 1) r.1
      (next.1, r.2.1 ++ next.2)
    else (.error (), r.2.1)

/-- `commands::learn` correction pass (`src/main.rs:545-556`). -/
def learn_apply_batches (gen : Nat → GenOutcome) (date : Str)
    (corrections : List Correction) (content : Str) :
    Except Unit Str × List CallRecord :=
  learnRunChunks gen date (chunksList 25 corrections) 0 content

/-! ## Facts about `correction_for` and `detect_corrections` -/

theorem eqIgnoreAsciiCase_symm (a b : Str) :
    eqIgnoreAsciiCase a b = eqIgnoreAsciiCase b a := by
  simp [eqIgnoreAsciiCase, eq_comm]

theorem correction_for_eq_some {p : Prediction} {email : Email} {c : Correction}
    (h : correction_for p email = some c) :
    c.email_id = p.email_id ∧
    c.actual_labels = email.labels.filter (fun l => !(is_system_label l)) := by
  simp only [correction_for] at h
  split at h
  · cases h; exact ⟨rfl, rfl⟩
  · cases h

theorem detect_corrections_append (fetch : Str → Option Email)
    (ps qs : List Prediction) :
    detect_corrections fetch (ps ++ qs) =
      { corrections := (detect_corrections fetch ps).corrections ++
          (detect_corrections fetch qs).corrections
        deleted_ids := (detect_corrections fetch ps).deleted_ids ++
          (detect_corrections fetch qs).deleted_ids } := by
  induction ps with
  | nil => simp [detect_corrections]
  | cons p ps ih =>
    cases hf : fetch p.email_id with
    | none => simp [detect_corrections, hf, ih]
    | some email =>
      cases hc : correction_for p email with
      | none => simp [detect_corrections, hf, hc, ih]
      | some c => simp [detect_corrections, hf, hc, ih]

theorem detect_corrections_mem_deleted (fetch : Str → Option Email) :
    ∀ (preds : List Prediction) (P : Prediction), P ∈ preds →
      fetch P.email_id = none →
      P.email_id ∈ (detect_corrections fetch preds).deleted_ids := by
  intro preds
  induction preds with
  | nil => intro P h; cases h
  | cons p ps ih =>
    intro P hmem hfail
    rcases List.mem_cons.mp hmem with rfl | hmem'
    · simp [detect_corrections, hfail]
    · have := ih P hmem' hfail
      cases hf : fetch p.email_id with
      | none =>
        simp only [detect_corrections, hf]
        exact List.mem_cons_of_mem _ this
      | some email =>
        cases hc : correction_for p email with
        | none => simpa [detect_corrections, hf, hc] using this
        | some c => simpa [detect_corrections, hf, hc] using this

theorem detect_corrections_fetch_isSome (fetch : Str → Option Email) :
    ∀ (preds : List Prediction) (c : Correction),
      c ∈ (detect_corrections fetch preds).corrections →
      (fetch c.email_id).isSome = true := by
  intro preds
  induction preds with
  | nil => intro c hc; simp [detect_corrections] at hc
  | cons p ps ih =>
    intro c hc
    cases hf : fetch p.email_id with
    | none =>
      rw [show detect_corrections fetch (p :: ps) =
        { corrections := (detect_corrections fetch ps).corrections
          deleted_ids := p.email_id :: (detect_corrections fetch ps).deleted_ids }
        from by simp [detect_corrections, hf]] at hc
      exact ih c hc
    | some email =>
      cases hcf : correction_for p email with
      | none =>
        rw [show detect_corrections fetch (p :: ps) = detect_corrections fetch ps
          from by simp [detect_corrections, hf, hcf]] at hc
        exact ih c hc
      | some c0 =>
        rw [show detect_corrections fetch (p :: ps) =
          { corrections := c0 :: (detect_corrections fetch ps).corrections
            deleted_ids := (detect_corrections fetch ps).deleted_ids }
          from by simp [detect_corrections, hf, hcf]] at hc
        rcases List.mem_cons.mp hc with rfl | hc'
        · rw [(correction_for_eq_some hcf).1, hf]; rfl
        · exact ih c hc'

/-- Claim C5: a prediction whose email fetch fails lands in `deleted_ids` and
never in `corrections`, and the scan of the remaining predictions is not
aborted: detection over any concatenation of prediction lists is the
concatenation of the independent results. -/
theorem detect_corrections_deleted_email
    (fetch : Str → Option Email) (preds : List Prediction) (P : Prediction)
    (hmem : P ∈ preds) (hfail : fetch P.email_id = none) :
    P.email_id ∈ (detect_corrections fetch preds).deleted_ids ∧
    (∀ c ∈ (detect_corrections fetch preds).corrections, c.email_id ≠ P.email_id) ∧
    (∀ ps qs : List Prediction,
      detect_corrections fetch (ps ++ qs) =
        { corrections := (detect_corrections fetch ps).corrections ++
            (detect_corrections fetch qs).corrections
          deleted_ids := (detect_corrections fetch ps).deleted_ids ++
            (detect_corrections fetch qs).deleted_ids }) := by
  refine ⟨detect_corrections_mem_deleted fetch preds P hmem hfail, ?_, ?_⟩
  · intro c hc heq
    have := detect_corrections_fetch_isSome fetch preds c hc
    rw [heq, hfail] at this
    cases this
  · intro ps qs; exact detect_corrections_append fetch ps qs

/-- Concrete provider for the C5 witness: only email `kept` still exists. -/
def fetchW5 : Str → Option Email := fun i =>
  if i = "kept".toList then
    some { id := "kept".toList, from_ := [], subject := [],
           labels := ["Work".toList] }
  else none

def goneP : Prediction :=
  { email_id := "gone".toList, from_ := [], subject := [], is_spam := false,
    theme := [], action := [], labels := [] }

def keptP : Prediction :=
  { email_id := "kept".toList, from_ := [], subject := [], is_spam := false,
    theme := [], action := [], labels := [] }

/-- Witness for C5 at a concrete store: prediction `goneP` cannot be fetched,
prediction `keptP` can and yields a correction. -/
theorem detect_corrections_deleted_email_witness :
    "gone".toList ∈ (detect_corrections fetchW5 [goneP, keptP]).deleted_ids ∧
      ∀ c ∈ (detect_corrections fetchW5 [goneP, keptP]).corrections,
        c.email_id ≠ "gone".toList := by
  refine ⟨?_, ?_⟩
  · exact (detect_corrections_deleted_email fetchW5 [goneP, keptP] goneP
      (by decide) (by decide)).1
  · exact (detect_corrections_deleted_email fetchW5 [goneP, keptP] goneP
      (by decide) (by decide)).2.1

theorem correction_for_none_of_case_insensitive_eq
    (P : Prediction) (email : Email)
    (hsub : ∀ l ∈ email.labels, ∃ p ∈ P.all_labels, eqIgnoreAsciiCase l p = true)
    (hsup : ∀ p ∈ P.all_labels, ∃ l ∈ email.labels, eqIgnoreAsciiCase l p = true)
    (hspam : email.labels.any (fun l => decide (l = "SPAM".toList)) = P.is_spam) :
    correction_for P email = none := by
  have hrem : P.all_labels.filter
      (fun pred_label =>
        !(email.labels.any (fun email_label => eqIgnoreAsciiCase email_label pred_label)))
      = [] := by
    rw [List.filter_eq_nil_iff]
    intro pl hpl
    rcases hsup pl hpl with ⟨l, hl, heq⟩
    simp only [Bool.not_eq_true', Bool.not_eq_false, List.any_eq_true]
    exact ⟨l, hl, heq⟩
  have hadd : email.labels.filter
      (fun email_label =>
        !(is_system_label email_label) &&
        !(P.all_labels.any (fun pred_label => eqIgnoreAsciiCase pred_label email_label)))
      = [] := by
    rw [List.filter_eq_nil_iff]
    intro el hel
    rcases hsub el hel with ⟨p, hp, heq⟩
    have : P.all_labels.any (fun pred_label => eqIgnoreAsciiCase pred_label el) = true := by
      rw [List.any_eq_true]
      exact ⟨p, hp, by rw [eqIgnoreAsciiCase_symm]; exact heq⟩
    simp [this]
  simp only [correction_for, hspam, hrem, hadd, bne_self_eq_false,
    List.isEmpty_nil, Bool.not_true, Bool.false_or, Bool.or_self, if_neg,
    Bool.false_eq_true, not_false_eq_true]

/-- Claim C6: a prediction whose current labels case-insensitively equal its
predicted labels and whose spam status matches contributes nothing to
`detect_corrections` — removing it from the store does not change the result,
so no correction (and no deleted id) is emitted for it. -/
theorem detect_corrections_case_insensitive_match
    (fetch : Str → Option Email) (ps qs : List Prediction)
    (P : Prediction) (email : Email)
    (hfetch : fetch P.email_id = some email)
    (hsub : ∀ l ∈ email.labels, ∃ p ∈ P.all_labels, eqIgnoreAsciiCase l p = true)
    (hsup : ∀ p ∈ P.all_labels, ∃ l ∈ email.labels, eqIgnoreAsciiCase l p = true)
    (hspam : email.labels.any (fun l => decide (l = "SPAM".toList)) = P.is_spam) :
    detect_corrections fetch (ps ++ P :: qs) = detect_corrections fetch (ps ++ qs) := by
  have hnone := correction_for_none_of_case_insensitive_eq P email hsub hsup hspam
  induction ps with
  | nil => simp [detect_corrections, hfetch, hnone]
  | cons p ps ih =>
    cases hf : fetch p.email_id with
    | none => simp [detect_corrections, hf, ih]
    | some e =>
      cases hc : correction_for p e with
      | none => simp [detect_corrections, hf, hc, ih]
      | some c => simp [detect_corrections, hf, hc, ih]

/-- Witness for C6: predicted `Finance` versus actual `finance` with matching
spam status produces no correction. -/
theorem detect_corrections_case_insensitive_match_witness :
    detect_corrections
        (fun _ => some { id := "m1".toList, from_ := [], subject := [],
                         labels := ["finance".toList] })
        ([] ++ { email_id := "m1".toList, from_ := [], subject := [],
                 is_spam := false, theme := ["Finance".toList], action := [],
                 labels := [] } :: []) =
      detect_corrections
        (fun _ => some { id := "m1".toList, from_ := [], subject := [],
                         labels := ["finance".toList] })
        ([] ++ []) :=
  detect_corrections_case_insensitive_match _ [] [] _
    { id := "m1".toList, from_ := [], subject := [], labels := ["finance".toList] }
    rfl (by decide) (by decide) (by decide)

/-- Claim C7: every correction emitted by `detect_corrections` has all system
labels (provider built-ins and the internal `Classified` marker) filtered out
of `actual_labels`. -/
theorem corrections_exclude_system_labels
    (fetch : Str → Option Email) (preds : List Prediction) :
    ∀ c ∈ (detect_corrections fetch preds).corrections,
      ∀ l ∈ c.actual_labels, is_system_label l = false := by
  induction preds with
  | nil => intro c hc; simp [detect_corrections] at hc
  | cons p ps ih =>
    intro c hc
    cases hf : fetch p.email_id with
    | none =>
      rw [show detect_corrections fetch (p :: ps) =
        { corrections := (detect_corrections fetch ps).corrections
          deleted_ids := p.email_id :: (detect_corrections fetch ps).deleted_ids }
        from by simp [detect_corrections, hf]] at hc
      exact ih c hc
    | some email =>
      cases hcf : correction_for p email with
      | none =>
        rw [show detect_corrections fetch (p :: ps) = detect_corrections fetch ps
          from by simp [detect_corrections, hf, hcf]] at hc
        exact ih c hc
      | some c0 =>
        rw [show detect_corrections fetch (p :: ps) =
          { corrections := c0 :: (detect_corrections fetch ps).corrections
            deleted_ids := (detect_corrections fetch ps).deleted_ids }
          from by simp [detect_corrections, hf, hcf]] at hc
        rcases List.mem_cons.mp hc with rfl | hc'
        · intro l hl
          rw [(correction_for_eq_some hcf).2] at hl
          have := (List.mem_filter.mp hl).2
          simpa using this
        · exact ih c hc'

/-- Concrete provider and store for the C7 witness. -/
def fetchW7 : Str → Option Email := fun _ =>
  some { id := "m1".toList, from_ := [], subject := [],
         labels := ["INBOX".toList, "Work".toList] }

def predW7 : Prediction :=
  { email_id := "m1".toList, from_ := [], subject := [], is_spam := false,
    theme := [], action := [], labels := [] }

def corrW7 : Correction :=
  { email_id := "m1".toList, from_ := [], subject := [],
    predicted_labels := [], actual_labels := ["Work".toList],
    predicted_spam := false, actual_spam := false }

/-- Witness for C7: a concrete run whose emitted correction carries only the
non-system label `Work`, with `INBOX` filtered away. -/
theorem corrections_exclude_system_labels_witness :
    corrW7 ∈ (detect_corrections fetchW7 [predW7]).corrections ∧
    ∀ l ∈ corrW7.actual_labels, is_system_label l = false := by
  constructor
  · decide
  · exact corrections_exclude_system_labels fetchW7 [predW7] corrW7 (by decide)

/-! ## Extraction order (C8) and the NO_UPDATE token (C9, C10) -/

theorem findSub_mdTag_none (r : Str) (h : findSub fenceTag r = none) :
    findSub mdTag r = none := by
  rw [findSub_eq_none_iff] at h ⊢
  intro j hj
  apply h j
  have h3 := congrArg (List.take 3) hj
  rw [List.take_take] at h3
  rw [show (3 : Nat) ⊓ mdTag.length = 3 from by decide] at h3
  rw [show mdTag.take 3 = fenceTag from by decide] at h3
  rw [show fenceTag.length = 3 from by decide]
  exact h3

/-- Claim C8: the extraction order of `extract_profile_update` — a
markdown-tagged fenced block wins; otherwise any fenced block (language
identifier line skipped); otherwise the raw trimmed response exactly when it
starts with the canonical profile title; otherwise no update (`none`, not an
error).  The first conjunct is the spec's concrete scenario. -/
theorem extract_profile_update_order :
    extract_profile_update
        ("Sure!\n```markdown\n# Email Classification Profile\n...\n```".toList) =
      some ("# Email Classification Profile\n...".toList) ∧
    (∀ (r : Str) (s e : Nat),
      findSub mdTag r = some s →
      findSub fenceTag (r.drop (s + 11)) = some e →
      extract_profile_update r = some (trimStr ((r.drop (s + 11)).take e))) ∧
    (∀ (r : Str) (s i e : Nat),
      findSub mdTag r = none →
      findSub fenceTag r = some s →
      findSub ['\n'] (r.drop (s + 3)) = some i →
      findSub fenceTag (r.drop (s + 3 + i + 1)) = some e →
      extract_profile_update r = some (trimStr ((r.drop (s + 3 + i + 1)).take e))) ∧
    (∀ r : Str, findSub fenceTag r = none →
      extract_profile_update r =
        (if strStartsWith profileTitle (trimStr r) then some (trimStr r) else none)) := by
  refine ⟨by decide, ?_, ?_, ?_⟩
  · intro r s e h1 h2
    simp only [extract_profile_update, extract_md_block, h1, h2]
  · intro r s i e hmd h2 h3 h4
    simp only [extract_profile_update, extract_md_block, extract_any_block,
      hmd, h2, h3, h4]
  · intro r h
    have hmd := findSub_mdTag_none r h
    simp only [extract_profile_update, extract_md_block, extract_any_block, h, hmd]

/-- Witness for C8, applying the markdown-block conjunct at a concrete
response. -/
theorem extract_profile_update_order_witness :
    extract_profile_update ("x```markdown\nA\n```y".toList) =
      some (trimStr ((("x```markdown\nA\n```y".toList).drop (1 + 11)).take 3)) :=
  extract_profile_update_order.2.1 ("x```markdown\nA\n```y".toList) 1 3
    (by decide) (by decide)

/-- Claim C9: when the external response is exactly the `NO_UPDATE_NEEDED`
token, the batched update is `Ok(None)` and `apply_corrections` keeps the
profile's replaceable content: the result is the input content with only the
per-correction log lines appended, no full replacement, and no error. -/
theorem no_update_needed_leaves_content :
    get_batched_profile_update (GenOutcome.response noUpdateToken) = Except.ok none ∧
    ∀ (date content : Str) (cs : List Correction),
      (apply_corrections (GenOutcome.response noUpdateToken) date content cs).1 =
        appendBatchLogs date content cs ∧
      (apply_corrections (GenOutcome.response noUpdateToken) date content cs).2.2 = true := by
  have hbu : get_batched_profile_update (GenOutcome.response noUpdateToken) =
      Except.ok none := by
    simp only [get_batched_profile_update]
    rw [if_pos (by decide)]
  refine ⟨hbu, ?_⟩
  intro date content cs
  by_cases hcs : cs.isEmpty
  · have hnil : cs = [] := by
      cases cs with
      | nil => rfl
      | cons a l => simp at hcs
    subst hnil
    simp [apply_corrections, appendBatchLogs]
  · simp [apply_corrections, hcs, hbu]

theorem dropWhile_through (p : Char → Bool) (c : Char) (pr x y : Str)
    (hc : p c = false) :
    ∃ x', (x ++ (c :: pr) ++ y).dropWhile p = x' ++ (c :: pr) ++ y := by
  rw [List.append_assoc, List.dropWhile_append]
  split
  · refine ⟨[], ?_⟩
    rw [List.cons_append, List.dropWhile_cons, if_neg (by simp [hc])]
    simp
  · exact ⟨x.dropWhile p, by rw [List.append_assoc]⟩

theorem containsSub_trimStr (pat t : Str) (hne : pat ≠ [])
    (hws : ∀ a ∈ pat, isRustWhitespace a = false)
    (h : containsSub pat t = true) :
    containsSub pat (trimStr t) = true := by
  obtain ⟨c, pr, rfl⟩ := List.exists_cons_of_ne_nil hne
  rcases (containsSub_iff _ t).mp h with ⟨j, hj⟩
  have ht : t = t.take j ++ (c :: pr) ++ (t.drop j).drop (c :: pr).length := by
    rw [List.append_assoc]
    conv_lhs => rw [← List.take_append_drop j t]
    congr 1
    conv_lhs => rw [← List.take_append_drop (c :: pr).length (t.drop j)]
    rw [hj]
  obtain ⟨x1, hx1⟩ := dropWhile_through isRustWhitespace c pr (t.take j)
    ((t.drop j).drop (c :: pr).length) (hws c (by simp))
  obtain ⟨rc, rpr, hr⟩ :=
    List.exists_cons_of_ne_nil (show (c :: pr).reverse ≠ [] by simp)
  have hrc : isRustWhitespace rc = false := by
    apply hws
    have hmem : rc ∈ (c :: pr).reverse := by
      rw [hr]; exact List.mem_cons_self rc rpr
    exact List.mem_reverse.mp hmem
  obtain ⟨x2, hx2⟩ := dropWhile_through isRustWhitespace rc rpr
    ((t.drop j).drop (c :: pr).length).reverse x1.reverse hrc
  rw [trimStr, ht, hx1]
  rw [show (x1 ++ (c :: pr) ++ (t.drop j).drop (c :: pr).length).reverse =
      ((t.drop j).drop (c :: pr).length).reverse ++ (rc :: rpr) ++ x1.reverse from by
    rw [← hr]; simp [List.reverse_append, List.append_assoc]]
  rw [hx2]
  rw [show (x2 ++ (rc :: rpr) ++ x1.reverse).reverse =
      x1 ++ (c :: pr) ++ x2.reverse from by
    rw [← hr]; simp [List.reverse_append, List.append_assoc]]
  rw [containsSub_iff]
  refine ⟨x1.length, ?_⟩
  rw [List.append_assoc, List.drop_left, List.take_left]

/-- Claim C10: any external response merely containing the substring
`NO_UPDATE_NEEDED` makes both the batched profile update and
`learn_from_action` return no update (`Ok(None)`), regardless of whatever
else — including an extractable fenced block — the response contains. -/
theorem no_update_substring_yields_none (t : Str)
    (h : containsSub noUpdateToken t = true) :
    get_batched_profile_update (GenOutcome.response t) = Except.ok none ∧
    learn_from_action (GenOutcome.response t) = Except.ok none := by
  have htrim : containsSub noUpdateToken (trimStr t) = true :=
    containsSub_trimStr noUpdateToken t (by decide) (by decide) h
  constructor
  · simp only [get_batched_profile_update]
    rw [if_pos htrim]
  · simp only [learn_from_action]
    rw [if_pos htrim]

/-- Witness for C10: the response is not exactly the token and carries an
extractable markdown block, yet both paths return no update. -/
theorem no_update_substring_yields_none_witness :
    (extract_profile_update
        (trimStr ("```markdown\nX\n```\nNO_UPDATE_NEEDED".toList))).isSome = true ∧
    get_batched_profile_update
        (GenOutcome.response ("```markdown\nX\n```\nNO_UPDATE_NEEDED".toList)) =
      Except.ok none ∧
    learn_from_action
        (GenOutcome.response ("```markdown\nX\n```\nNO_UPDATE_NEEDED".toList)) =
      Except.ok none :=
  ⟨by decide,
   no_update_substring_yields_none ("```markdown\nX\n```\nNO_UPDATE_NEEDED".toList)
     (by decide)⟩

/-! ## Appending corrections (C3) -/

theorem findSub_char_after (nl : Char) :
    ∀ (x : Str), (∀ c ∈ x, c ≠ nl) → ∀ (y : Str),
      findSub [nl] (x ++ nl :: y) = some x.length
  | [], _, y => by
    simp [findSub, strStartsWith]
  | a :: x, h, y => by
    have ha : a ≠ nl := h a (List.mem_cons_self a x)
    have hx : ∀ c ∈ x, c ≠ nl := fun c hc => h c (List.mem_cons_of_mem a hc)
    simp only [List.cons_append, findSub, List.append_eq]
    rw [if_neg (by simp [strStartsWith, ha])]
    rw [findSub_char_after nl x hx y]
    rfl

theorem append_correction_at (A B cl : Str)
    (h : findSub lcHeader (A ++ lcHeader ++ '\n' :: B) = some A.length) :
    append_correction (A ++ lcHeader ++ '\n' :: B) cl =
      A ++ lcHeader ++ '\n' :: (('-' :: ' ' :: cl ++ ['\n']) ++ B) := by
  have hdrop : (A ++ lcHeader ++ '\n' :: B).drop A.length = lcHeader ++ '\n' :: B := by
    rw [List.append_assoc]
    exact List.drop_left A (lcHeader ++ '\n' :: B)
  have hnl : findSub ['\n'] (lcHeader ++ '\n' :: B) = some lcHeader.length :=
    findSub_char_after '\n' lcHeader (by decide) B
  simp only [append_correction, h, hdrop, hnl]
  have hsplit : A ++ lcHeader ++ '\n' :: B =
      (A ++ lcHeader ++ ['\n']) ++ B := by
    simp [List.append_assoc]
  have hlen : A.length + lcHeader.length + 1 = (A ++ lcHeader ++ ['\n']).length := by
    simp [List.length_append]
    omega
  rw [hsplit, hlen, List.take_left, List.drop_left]
  simp [List.append_assoc]

theorem findSub_lcHeader_stable (A X B : Str)
    (h : findSub lcHeader (A ++ lcHeader ++ '\n' :: B) = some A.length) :
    findSub lcHeader (A ++ lcHeader ++ '\n' :: (X ++ B)) = some A.length := by
  rcases (findSub_eq_some_iff lcHeader _ _).mp h with ⟨_, h2⟩
  apply (findSub_eq_some_iff lcHeader _ _).mpr
  constructor
  · rw [List.append_assoc, List.drop_left A (lcHeader ++ '\n' :: (X ++ B)),
      List.take_left]
  · intro j hj
    have hwin : ∀ rest : Str,
        ((A ++ lcHeader ++ rest).drop j).take lcHeader.length =
          (A.drop j ++ lcHeader).take lcHeader.length := by
      intro rest
      rw [drop_append_le (A ++ lcHeader) rest j
          (by simp [List.length_append]; omega),
        drop_append_le A lcHeader j (by omega),
        take_append_le (A.drop j ++ lcHeader) rest lcHeader.length
          (by simp [List.length_append])]
    rw [hwin ('\n' :: (X ++ B))]
    have := h2 j hj
    rw [hwin ('\n' :: B)] at this
    exact this

theorem foldl_reverse_lines (cs : List Str) :
    ∀ init : Str,
      cs.foldl (fun acc c => ('-' :: ' ' :: c ++ ['\n']) ++ acc) init =
        cs.foldl (fun acc c => ('-' :: ' ' :: c ++ ['\n']) ++ acc) [] ++ init := by
  induction cs with
  | nil => intro init; simp
  | cons c cs ih =>
    intro init
    simp only [List.foldl_cons]
    rw [ih (('-' :: ' ' :: c ++ ['\n']) ++ []), ih (('-' :: ' ' :: c ++ ['\n']) ++ init)]
    simp [List.append_assoc]

/-- Claim C3 (amended): appending `cs` corrections one at a time to a document
whose first `## Learned Corrections` occurrence is at position `A.length`
inserts the new `- ...` lines immediately after the header line in reverse
append order (most recent first); the text `A` before the header, the header
line itself, and everything after the insertion point — in particular all
prior entries and all other sections in `B` — are byte-identical. -/
theorem append_corrections_spec (A : Str) (cs : List Str) :
    ∀ B : Str,
      findSub lcHeader (A ++ lcHeader ++ '\n' :: B) = some A.length →
      cs.foldl append_correction (A ++ lcHeader ++ '\n' :: B) =
        A ++ lcHeader ++ '\n' ::
          (cs.foldl (fun acc c => ('-' :: ' ' :: c ++ ['\n']) ++ acc) [] ++ B) := by
  induction cs with
  | nil => intro B _; simp
  | cons c cs ih =>
    intro B h
    simp only [List.foldl_cons]
    rw [append_correction_at A B c h]
    rw [ih (('-' :: ' ' :: c ++ ['\n']) ++ B)
      (findSub_lcHeader_stable A ('-' :: ' ' :: c ++ ['\n']) B h)]
    rw [foldl_reverse_lines cs (('-' :: ' ' :: c ++ ['\n']) ++ [])]
    simp [List.append_assoc]

/-- Counterexample to C3 as stated: appending `corr-a` then `corr-b` to a
document with an existing entry yields the new lines in reverse append order
(`- corr-b` before `- corr-a`), not in append order, and not appended after
the prior entries. -/
theorem append_corrections_order_cex :
    ["corr-a".toList, "corr-b".toList].foldl append_correction
        ("## Learned Corrections\n- old\n## Other\n".toList) =
      "## Learned Corrections\n- corr-b\n- corr-a\n- old\n## Other\n".toList ∧
    ["corr-a".toList, "corr-b".toList].foldl append_correction
        ("## Learned Corrections\n- old\n## Other\n".toList) ≠
      "## Learned Corrections\n- corr-a\n- corr-b\n- old\n## Other\n".toList ∧
    ["corr-a".toList, "corr-b".toList].foldl append_correction
        ("## Learned Corrections\n- old\n## Other\n".toList) ≠
      "## Learned Corrections\n- old\n- corr-a\n- corr-b\n## Other\n".toList := by
  refine ⟨by decide, by decide, by decide⟩

/-- Witness for the amended C3 at a concrete document with a title line, one
prior entry and a trailing section. -/
theorem append_corrections_spec_witness :
    ["a".toList, "b".toList].foldl append_correction
        ("# T\n".toList ++ lcHeader ++ '\n' :: "- old\n## Other\n".toList) =
      "# T\n".toList ++ lcHeader ++ '\n' ::
        (["a".toList, "b".toList].foldl
            (fun acc c => ('-' :: ' ' :: c ++ ['\n']) ++ acc) [] ++
          "- old\n## Other\n".toList) :=
  append_corrections_spec ("# T\n".toList) ["a".toList, "b".toList]
    ("- old\n## Other\n".toList) (by decide)

/-! ## Removing a label's rule section (C4) -/

/-- Claim C4 (amended): `remove_label_rules` cuts from the first occurrence of
`### <label>` up to the first `"\n### "` occurring anywhere after it — even
when a `"\n## "` header intervenes, in which case the intervening `## `
section is deleted too; only when no `"\n### "` follows does it cut to the
first following `"\n## "`, and to the document end when neither follows.  The
text before the header and the text from the cut point on are untouched. -/
theorem remove_label_rules_spec :
    (∀ (A M T label : Str),
      findSub (labelHeader label)
          (A ++ labelHeader label ++ M ++ "\n### ".toList ++ T) = some A.length →
      findSub ("\n### ".toList) (M ++ "\n### ".toList ++ T) = some M.length →
      remove_label_rules (A ++ labelHeader label ++ M ++ "\n### ".toList ++ T) label =
        A ++ "\n### ".toList ++ T) ∧
    (∀ (A M T label : Str),
      findSub (labelHeader label)
          (A ++ labelHeader label ++ M ++ "\n## ".toList ++ T) = some A.length →
      findSub ("\n### ".toList) (M ++ "\n## ".toList ++ T) = none →
      findSub ("\n## ".toList) (M ++ "\n## ".toList ++ T) = some M.length →
      remove_label_rules (A ++ labelHeader label ++ M ++ "\n## ".toList ++ T) label =
        A ++ "\n## ".toList ++ T) ∧
    (∀ (A M label : Str),
      findSub (labelHeader label) (A ++ labelHeader label ++ M) = some A.length →
      findSub ("\n### ".toList) M = none →
      findSub ("\n## ".toList) M = none →
      remove_label_rules (A ++ labelHeader label ++ M) label = A) := by
  refine ⟨?_, ?_, ?_⟩
  · intro A M T label h1 h2
    have hrem : (A ++ labelHeader label ++ M ++ "\n### ".toList ++ T).drop
        (A.length + (labelHeader label).length) = M ++ "\n### ".toList ++ T := by
      have e : A ++ labelHeader label ++ M ++ "\n### ".toList ++ T =
          (A ++ labelHeader label) ++ (M ++ "\n### ".toList ++ T) := by
        simp [List.append_assoc]
      rw [e, show A.length + (labelHeader label).length =
          (A ++ labelHeader label).length from (List.length_append _ _).symm,
        List.drop_left]
    have htake : (A ++ labelHeader label ++ M ++ "\n### ".toList ++ T).take
        A.length = A := by
      have e : A ++ labelHeader label ++ M ++ "\n### ".toList ++ T =
          A ++ (labelHeader label ++ (M ++ ("\n### ".toList ++ T))) := by
        simp [List.append_assoc]
      rw [e, take_append_le A _ A.length le_rfl, List.take_length]
    have hdropEnd : (A ++ labelHeader label ++ M ++ "\n### ".toList ++ T).drop
        (A.length + (labelHeader label).length + M.length) =
          "\n### ".toList ++ T := by
      have e : A ++ labelHeader label ++ M ++ "\n### ".toList ++ T =
          ((A ++ labelHeader label) ++ M) ++ ("\n### ".toList ++ T) := by
        simp [List.append_assoc]
      rw [e, show A.length + (labelHeader label).length + M.length =
          ((A ++ labelHeader label) ++ M).length from by
            simp [List.length_append]; omega,
        List.drop_left]
    simp only [remove_label_rules, h1, hrem, h2, hdropEnd, htake]
    simp [List.append_assoc]
  · intro A M T label h1 h2 h3
    have hrem : (A ++ labelHeader label ++ M ++ "\n## ".toList ++ T).drop
        (A.length + (labelHeader label).length) = M ++ "\n## ".toList ++ T := by
      have e : A ++ labelHeader label ++ M ++ "\n## ".toList ++ T =
          (A ++ labelHeader label) ++ (M ++ "\n## ".toList ++ T) := by
        simp [List.append_assoc]
      rw [e, show A.length + (labelHeader label).length =
          (A ++ labelHeader label).length from (List.length_append _ _).symm,
        List.drop_left]
    have htake : (A ++ labelHeader label ++ M ++ "\n## ".toList ++ T).take
        A.length = A := by
      have e : A ++ labelHeader label ++ M ++ "\n## ".toList ++ T =
          A ++ (labelHeader label ++ (M ++ ("\n## ".toList ++ T))) := by
        simp [List.append_assoc]
      rw [e, take_append_le A _ A.length le_rfl, List.take_length]
    have hdropEnd : (A ++ labelHeader label ++ M ++ "\n## ".toList ++ T).drop
        (A.length + (labelHeader label).length + M.length) =
          "\n## ".toList ++ T := by
      have e : A ++ labelHeader label ++ M ++ "\n## ".toList ++ T =
          ((A ++ labelHeader label) ++ M) ++ ("\n## ".toList ++ T) := by
        simp [List.append_assoc]
      rw [e, show A.length + (labelHeader label).length + M.length =
          ((A ++ labelHeader label) ++ M).length from by
            simp [List.length_append]; omega,
        List.drop_left]
    simp only [remove_label_rules, h1, hrem, h2, h3, hdropEnd, htake]
    simp [List.append_assoc]
  · intro A M label h1 h2 h3
    have hrem : (A ++ labelHeader label ++ M).drop
        (A.length + (labelHeader label).length) = M := by
      have e : A ++ labelHeader label ++ M =
          (A ++ labelHeader label) ++ M := by simp [List.append_assoc]
      rw [e, show A.length + (labelHeader label).length =
          (A ++ labelHeader label).length from (List.length_append _ _).symm,
        List.drop_left]
    have htake : (A ++ labelHeader label ++ M).take A.length = A := by
      have e : A ++ labelHeader label ++ M =
          A ++ (labelHeader label ++ M) := by simp [List.append_assoc]
      rw [e, take_append_le A _ A.length le_rfl, List.take_length]
    simp only [remove_label_rules, h1, hrem, h2, h3, List.drop_length, htake,
      List.append_nil]

/-- Counterexample to C4 as stated: removing label `A` from
`"### A\nx\n## K\ny\n### B\nz"` deletes past the `## K` header up to the later
`### B` header, wiping the unrelated `## K` section, instead of stopping at
the next `## ` header. -/
theorem remove_label_rules_skips_h2_cex :
    remove_label_rules ("### A\nx\n## K\ny\n### B\nz".toList) ("A".toList) =
        "\n### B\nz".toList ∧
    remove_label_rules ("### A\nx\n## K\ny\n### B\nz".toList) ("A".toList) ≠
        "\n## K\ny\n### B\nz".toList ∧
    remove_label_rules ("### A\nx\n## K\ny\n### B\nz".toList) ("A".toList) ≠
        "## K\ny\n### B\nz".toList ∧
    containsSub ("## K".toList)
        (remove_label_rules ("### A\nx\n## K\ny\n### B\nz".toList) ("A".toList)) =
      false := by
  refine ⟨by decide, by decide, by decide, by decide⟩

/-- Witness for the amended C4: the cut for label `A` runs to the later
`"\n### "` even though `M` contains a `"\n## Keep"` header. -/
theorem remove_label_rules_spec_witness :
    remove_label_rules
        ("intro\n".toList ++ labelHeader ("A".toList) ++
          "\nrule\n## Keep\ntext".toList ++ "\n### ".toList ++ "B\nz".toList)
        ("A".toList) =
      "intro\n".toList ++ "\n### ".toList ++ "B\nz".toList :=
  remove_label_rules_spec.1 ("intro\n".toList) ("\nrule\n## Keep\ntext".toList)
    ("B\nz".toList) ("A".toList) (by decide) (by decide)

/-! ## The batch loops of `scan` and `learn` (C1, C2) -/

/-- A minimal correction used by the concrete batch-loop scenarios. -/
def trivCorrection : Correction :=
  { email_id := [], from_ := [], subject := [], predicted_labels := [],
    actual_labels := [], predicted_spam := false, actual_spam := false }

def cs26 : List Correction := List.replicate 26 trivCorrection

def cs60 : List Correction := List.replicate 60 trivCorrection

/-- External oracle whose every call fails (spawn error / timeout). -/
def genFail : Nat → GenOutcome := fun _ => GenOutcome.failure

/-- The replacement profile text produced by the 1st call of the C1 witness
scenario (a raw title-led response, used verbatim by extraction). -/
def profW1 : Str := "# Email Classification Profile\nv1".toList

/-- External oracle for the C1 witness: call 1 succeeds with a title-led
profile, call 2 fails, call 3 succeeds again. -/
def genW1 : Nat → GenOutcome := fun i =>
  if i = 1 then GenOutcome.failure
  else GenOutcome.response ("# Email Classification Profile\nv1".toList)

theorem apply_corrections_calls (o : GenOutcome) (d c : Str)
    (chunk : List Correction) (h : chunk ≠ []) :
    (apply_corrections o d c chunk).2.1 =
      [{ batch := chunk, baseline := appendBatchLogs d c chunk }] := by
  unfold apply_corrections
  rw [if_neg (by simp [List.isEmpty_eq_false.mpr h])]
  split <;> rfl

theorem apply_corrections_error (o : GenOutcome) (d c : Str)
    (chunk : List Correction) (h : chunk ≠ [])
    (hg : get_batched_profile_update o = Except.error ()) :
    apply_corrections o d c chunk =
      (appendBatchLogs d c chunk,
       [{ batch := chunk, baseline := appendBatchLogs d c chunk }], false) := by
  unfold apply_corrections
  rw [if_neg (by simp [List.isEmpty_eq_false.mpr h]), hg]

theorem apply_corrections_some (o : GenOutcome) (d c : Str)
    (chunk : List Correction) (p : Str) (h : chunk ≠ [])
    (hg : get_batched_profile_update o = Except.ok (some p)) :
    apply_corrections o d c chunk =
      (p, [{ batch := chunk, baseline := appendBatchLogs d c chunk }], true) := by
  unfold apply_corrections
  rw [if_neg (by simp [List.isEmpty_eq_false.mpr h]), hg]

theorem scanRunChunks_trace_length (gen : Nat → GenOutcome) (date : Str) :
    ∀ (L : List (List Correction)) (i : Nat) (content : Str),
      (∀ c ∈ L, c ≠ []) →
      ((scanRunChunks gen date L i content).2).length = L.length := by
  intro L
  induction L with
  | nil => intro i content _; simp [scanRunChunks]
  | cons chunk rest ih =>
    intro i content hne
    simp only [scanRunChunks]
    rw [List.length_append,
      ih (i + 1) (apply_corrections (gen i) date content chunk).1
        (fun c hc => hne c (List.mem_cons_of_mem _ hc)),
      apply_corrections_calls (gen i) date content chunk
        (hne chunk (List.mem_cons_self _ _))]
    simp [Nat.add_comm]

theorem chunksList_ne_nil {α : Type _} (n : Nat) (hn : 1 ≤ n) :
    ∀ (l : List α), ∀ c ∈ chunksList n l, c ≠ []
  | [] => by simp [chunksList]
  | a :: t => by
    intro c hc
    simp only [chunksList] at hc
    rcases List.mem_cons.mp hc with rfl | hc'
    · cases n with
      | zero => omega
      | succ m => simp [List.take_succ_cons]
    · exact chunksList_ne_nil n hn (t.drop (n - 1)) c hc'
termination_by l => l.length
decreasing_by simp [List.length_drop]; omega

theorem chunksList_eq_cons {α : Type _} (n : Nat) (l : List α) (hn : 1 ≤ n)
    (hl : l ≠ []) :
    chunksList n l = l.take n :: chunksList n (l.drop n) := by
  obtain ⟨a, t, rfl⟩ := List.exists_cons_of_ne_nil hl
  cases n with
  | zero => omega
  | succ m => simp only [chunksList, List.drop_succ_cons, Nat.add_sub_cancel]

/-- Counterexample to C2 as stated: the `learn` command's batch loop runs
`apply_corrections(chunk).await?`, so a failed batch aborts the whole run.
With 26 corrections (2 batches of size 25) and a failing first call, the run
errors out having issued only 1 of the 2 batch calls. -/
theorem learn_batch_failure_aborts_run :
    (chunksList 25 cs26).length = 2 ∧
    (learn_apply_batches genFail [] cs26 []).1 = Except.error () ∧
    ((learn_apply_batches genFail [] cs26 []).2).length = 1 := by
  have hne1 : cs26.take 25 ≠ [] := by decide
  have hch : chunksList 25 cs26 = [cs26.take 25, (cs26.drop 25).take 25] := by
    rw [chunksList_eq_cons 25 cs26 (by omega) (by decide),
      chunksList_eq_cons 25 (cs26.drop 25) (by omega) (by decide),
      show (cs26.drop 25).drop 25 = [] from by decide]
    simp [chunksList]
  refine ⟨by rw [hch]; rfl, ?_, ?_⟩ <;>
  · unfold learn_apply_batches
    rw [hch]
    simp only [learnRunChunks]
    rw [apply_corrections_error (genFail 0) [] [] (cs26.take 25) hne1 rfl]
    rfl

/-- Claim C2 (amended): in the `scan` command's correction pass a batch
failure never aborts the run — every batch issues its external call whatever
the earlier outcomes — and a failed call leaves the profile at the content of
the last successful batch plus the failed batch's own appended log lines,
which is the content the next batch then starts from.  (In the `learn`
command, by contrast, a failed batch aborts the remaining batches, see the
counterexample.) -/
theorem scan_batch_failure_continues :
    (∀ (gen : Nat → GenOutcome) (date content : Str) (cs : List Correction),
      ((scan_apply_batches gen date cs content).2).length =
        (chunksList 25 cs).length) ∧
    (∀ (o : GenOutcome) (d c : Str) (chunk : List Correction), chunk ≠ [] →
      get_batched_profile_update o = Except.error () →
      apply_corrections o d c chunk =
        (appendBatchLogs d c chunk,
         [{ batch := chunk, baseline := appendBatchLogs d c chunk }], false)) := by
  constructor
  · intro gen date content cs
    unfold scan_apply_batches
    exact scanRunChunks_trace_length gen date (chunksList 25 cs) 0 content
      (chunksList_ne_nil 25 (by omega) cs)
  · intro o d c chunk h hg
    exact apply_corrections_error o d c chunk h hg

/-- Witness for the amended C2 at a concrete failing batch. -/
theorem scan_batch_failure_continues_witness :
    apply_corrections GenOutcome.failure [] [] [trivCorrection] =
      (appendBatchLogs [] [] [trivCorrection],
       [{ batch := [trivCorrection],
          baseline := appendBatchLogs [] [] [trivCorrection] }], false) :=
  scan_batch_failure_continues.2 GenOutcome.failure [] [] [trivCorrection]
    (by decide) rfl

/-- Claim C1: 60 corrections chunked at `BATCH_SIZE = 25` issue exactly 3
external rewrite calls; and when the 1st call succeeds with replacement text
`P1` and the 2nd call fails, `P1` is preserved — the failed call contributes
nothing — and the 3rd call is still issued, its baseline being `P1` with the
2nd and 3rd batches' correction log lines appended (per-batch logging always
precedes the call). -/
theorem scan_sixty_corrections_three_calls
    (gen : Nat → GenOutcome) (date content : Str) (cs : List Correction)
    (hlen : cs.length = 60) :
    ((scan_apply_batches gen date cs content).2).length = 3 ∧
    (∀ P1 : Str,
      get_batched_profile_update (gen 0) = Except.ok (some P1) →
      get_batched_profile_update (gen 1) = Except.error () →
      (scan_apply_batches gen date cs content).2 =
        [{ batch := cs.take 25,
           baseline := appendBatchLogs date content (cs.take 25) },
         { batch := (cs.drop 25).take 25,
           baseline := appendBatchLogs date P1 ((cs.drop 25).take 25) },
         { batch := ((cs.drop 25).drop 25).take 25,
           baseline := appendBatchLogs date
             (appendBatchLogs date P1 ((cs.drop 25).take 25))
             (((cs.drop 25).drop 25).take 25) }]) := by
  have hne0 : cs ≠ [] := by
    apply List.length_pos.mp; omega
  have hne1 : cs.drop 25 ≠ [] := by
    apply List.length_pos.mp; simp [List.length_drop, hlen]
  have hne2 : (cs.drop 25).drop 25 ≠ [] := by
    apply List.length_pos.mp; simp [List.length_drop, hlen]
  have hnil3 : ((cs.drop 25).drop 25).drop 25 = [] := by
    apply List.eq_nil_of_length_eq_zero; simp [List.length_drop, hlen]
  have hch : chunksList 25 cs =
      [cs.take 25, (cs.drop 25).take 25, ((cs.drop 25).drop 25).take 25] := by
    rw [chunksList_eq_cons 25 cs (by omega) hne0,
      chunksList_eq_cons 25 (cs.drop 25) (by omega) hne1,
      chunksList_eq_cons 25 ((cs.drop 25).drop 25) (by omega) hne2,
      hnil3]
    simp [chunksList]
  have htne1 : cs.take 25 ≠ [] := by
    apply List.length_pos.mp; simp [List.length_take, hlen]
  have htne2 : (cs.drop 25).take 25 ≠ [] := by
    apply List.length_pos.mp; simp [List.length_take, List.length_drop, hlen]
  have htne3 : ((cs.drop 25).drop 25).take 25 ≠ [] := by
    apply List.length_pos.mp; simp [List.length_take, List.length_drop]; omega
  constructor
  · unfold scan_apply_batches
    rw [scanRunChunks_trace_length gen date (chunksList 25 cs) 0 content
      (chunksList_ne_nil 25 (by omega) cs), hch]
    rfl
  · intro P1 hg0 hg1
    unfold scan_apply_batches
    rw [hch]
    simp only [scanRunChunks]
    rw [apply_corrections_some (gen 0) date content (cs.take 25) P1 htne1 hg0]
    simp only [Nat.zero_add, Nat.reduceAdd]
    rw [apply_corrections_error (gen 1) date P1 ((cs.drop 25).take 25) htne2 hg1]
    rw [apply_corrections_calls (gen 2) date
      (appendBatchLogs date P1 ((cs.drop 25).take 25))
      (((cs.drop 25).drop 25).take 25) htne3]
    simp

/-- Witness for C1: 60 trivial corrections, the 1st call returning a title-led
profile text, the 2nd failing. -/
theorem scan_sixty_corrections_three_calls_witness :
    ((scan_apply_batches genW1 [] cs60 []).2).length = 3 ∧
    (scan_apply_batches genW1 [] cs60 []).2 =
      [{ batch := cs60.take 25,
         baseline := appendBatchLogs [] [] (cs60.take 25) },
       { batch := (cs60.drop 25).take 25,
         baseline := appendBatchLogs [] profW1 ((cs60.drop 25).take 25) },
       { batch := ((cs60.drop 25).drop 25).take 25,
         baseline := appendBatchLogs []
           (appendBatchLogs [] profW1 ((cs60.drop 25).take 25))
           (((cs60.drop 25).drop 25).take 25) }] :=
  ⟨(scan_sixty_corrections_three_calls genW1 [] [] cs60 (by decide)).1,
   (scan_sixty_corrections_three_calls genW1 [] [] cs60 (by decide)).2 profW1
     rfl rfl⟩

end EmailAssistant
